import Mathlib

set_option maxRecDepth 8000

/-!
Shallow embedding of `src/main.py` (a Telegram bot that classifies images
from a ZIP archive with a vision model, renames the files according to the
parsed classification, and returns a report plus a repackaged archive).

Python strings are modelled as Lean `String` (sequences of code points,
matching Python's semantics for slicing, length and iteration).  External
collaborators (the vision API, PIL image decoding, the Telegram SDK) are
modelled as explicit oracle parameters; all functions of the repository
itself are translated from the source.
-/

/-! ### Python string primitives -/

/-- Case-folding table: models Python `str.lower` on the alphabets that occur
in this program (ASCII plus Cyrillic А..Я and Ё).  Lean's own `Char.toLower`
is ASCII-only, while the source lowercases Russian model output. -/
def lowerTable : List (Char × Char) :=
  [('A', 'a'), ('B', 'b'), ('C', 'c'), ('D', 'd'), ('E', 'e'), ('F', 'f'),
   ('G', 'g'), ('H', 'h'), ('I', 'i'), ('J', 'j'), ('K', 'k'), ('L', 'l'),
   ('M', 'm'), ('N', 'n'), ('O', 'o'), ('P', 'p'), ('Q', 'q'), ('R', 'r'),
   ('S', 's'), ('T', 't'), ('U', 'u'), ('V', 'v'), ('W', 'w'), ('X', 'x'),
   ('Y', 'y'), ('Z', 'z'),
   ('А', 'а'), ('Б', 'б'), ('В', 'в'), ('Г', 'г'), ('Д', 'д'), ('Е', 'е'),
   ('Ж', 'ж'), ('З', 'з'), ('И', 'и'), ('Й', 'й'), ('К', 'к'), ('Л', 'л'),
   ('М', 'м'), ('Н', 'н'), ('О', 'о'), ('П', 'п'), ('Р', 'р'), ('С', 'с'),
   ('Т', 'т'), ('У', 'у'), ('Ф', 'ф'), ('Х', 'х'), ('Ц', 'ц'), ('Ч', 'ч'),
   ('Ш', 'ш'), ('Щ', 'щ'), ('Ъ', 'ъ'), ('Ы', 'ы'), ('Ь', 'ь'), ('Э', 'э'),
   ('Ю', 'ю'), ('Я', 'я'), ('Ё', 'ё')]

/-- Lower-case one character (Python `str.lower`, per character). -/
def ruLower (c : Char) : Char :=
  match lowerTable.find? (fun p => p.1 == c) with
  | some p => p.2
  | none => c

/-- Models Python `s.lower()`. -/
def pyLower (s : String) : String := String.mk (s.data.map ruLower)

/-- `isPref p l` : `p` is a prefix of `l` (decision procedure). -/
def isPref : List Char → List Char → Bool
  | [], _ => true
  | _ :: _, [] => false
  | a :: as, b :: bs => a == b && isPref as bs

/-- `hasSubL needle hay` : `needle` occurs as a contiguous sublist of `hay`.
Models Python's `needle in hay` for strings. -/
def hasSubL (needle : List Char) : List Char → Bool
  | [] => isPref needle []
  | c :: t => isPref needle (c :: t) || hasSubL needle t

/-- Models Python `needle in s` (substring test). -/
def hasSub (needle s : String) : Bool := hasSubL needle.data s.data

/-- Models Python `s.startswith(p)`. -/
def pyStartsWith (p s : String) : Bool := isPref p.data s.data

/-- Models Python `s.endswith(p)`. -/
def pyEndsWith (p s : String) : Bool := isPref p.data.reverse s.data.reverse

/-- Drop trailing whitespace. -/
def stripEnd (l : List Char) : List Char :=
  (l.reverse.dropWhile Char.isWhitespace).reverse

/-- Models Python `s.strip()` on character lists (whitespace here is
space/tab/CR/LF, the whitespace that can occur in the strings this program
manipulates). -/
def pyStripL (l : List Char) : List Char :=
  (stripEnd l).dropWhile Char.isWhitespace

/-- Models Python `s.strip()`. -/
def pyStrip (s : String) : String := String.mk (pyStripL s.data)

/-- Split a character list at `'\n'`, keeping empty pieces
(Python `s.split('\n')`). -/
def splitNl : List Char → List (List Char)
  | [] => [[]]
  | c :: t =>
    if c = '\n' then [] :: splitNl t
    else
      match splitNl t with
      | [] => [[c]]
      | h :: r => (c :: h) :: r

/-- Models Python `s.split('\n')`. -/
def pySplitLines (s : String) : List String := (splitNl s.data).map String.mk

/-- Helper for `pyWords`: accumulate the current (reversed) word. -/
def wordsL : List Char → List Char → List (List Char)
  | [], cur => if cur.isEmpty then [] else [cur.reverse]
  | c :: t, cur =>
    if Char.isWhitespace c then
      if cur.isEmpty then wordsL t [] else cur.reverse :: wordsL t []
    else wordsL t (c :: cur)

/-- Models Python `s.split()` (split on whitespace runs, dropping empties). -/
def pyWords (s : String) : List String := (wordsL s.data []).map String.mk

/-- Models the Python slice `s[:n]` (by code points). -/
def pyTake (n : Nat) (s : String) : String := String.mk (s.data.take n)

/-- Models the Python slice `s[n:]` (by code points). -/
def pyDrop (n : Nat) (s : String) : String := String.mk (s.data.drop n)

/-- Models Python `c.isalnum()` on the alphabets that occur in this program
(ASCII alphanumerics plus Cyrillic letters). -/
def pyIsAlnum (c : Char) : Bool :=
  c.isAlphanum || decide (1040 ≤ c.toNat ∧ c.toNat ≤ 1103) || c == 'ё' || c == 'Ё'

/-- Replace every non-overlapping occurrence of `needle` (left to right) by
`repl`; the `Nat` argument counts characters still to be skipped after a
match.  Models Python `s.replace(needle, repl)` for nonempty `needle`. -/
def replAux (needle repl : List Char) : List Char → Nat → List Char
  | [], _ => []
  | _ :: t, k + 1 => replAux needle repl t k
  | c :: t, 0 =>
    if needle ≠ [] ∧ isPref needle (c :: t) = true then
      repl ++ replAux needle repl t (needle.length - 1)
    else c :: replAux needle repl t 0

/-- Models Python `s.replace(needle, repl)` (nonempty `needle`). -/
def pyReplace (s needle repl : String) : String :=
  String.mk (replAux needle.data repl.data s.data 0)

/-- Decimal digits of `n`, least significant first, with explicit fuel so the
definition is structurally recursive. -/
def natDigitsAux : Nat → Nat → List Char
  | 0, _ => []
  | _ + 1, 0 => []
  | fuel + 1, n + 1 =>
    Char.ofNat (48 + (n + 1) % 10) :: natDigitsAux fuel ((n + 1) / 10)

/-- Models Python `str(n)` for a natural number. -/
def natStr (n : Nat) : String :=
  if n = 0 then "0" else String.mk (natDigitsAux n n).reverse

/-- Models the Python format `f"{n:03d}"` for a natural number. -/
def pad3 (n : Nat) : String :=
  let s := natStr n
  if s.length < 3 then String.mk (List.replicate (3 - s.length) '0') ++ s else s

/-- Index of the last occurrence of `c`, counting from offset `i`. -/
def rfindAux (c : Char) : List Char → Nat → Option Nat
  | [], _ => none
  | h :: t, i =>
    match rfindAux c t (i + 1) with
    | some j => some j
    | none => if h = c then some i else none

/-- Models Python `s.rfind(c)` (as an `Option` instead of `-1`). -/
def rfind (c : Char) (l : List Char) : Option Nat := rfindAux c l 0

/-- Start of the basename: one past the last `'/'` (`sepIndex + 1` in
`posixpath.splitext`). -/
def extSepIdx (l : List Char) : Nat :=
  match rfind '/' l with
  | none => 0
  | some k => k + 1

/-- Models `os.path.splitext` (posixpath): split at the last `'.'` of the
basename, unless the basename consists only of leading dots up to it. -/
def pySplitextL (l : List Char) : List Char × List Char :=
  match rfind '.' l with
  | none => (l, [])
  | some d =>
    if extSepIdx l ≤ d then
      if (List.range (d - extSepIdx l)).any
          (fun o => decide (l.get? (extSepIdx l + o) ≠ some '.')) then
        (l.take d, l.drop d)
      else (l, [])
    else (l, [])

/-- Models `os.path.splitext` on strings. -/
def pySplitext (s : String) : String × String :=
  (String.mk (pySplitextL s.data).1, String.mk (pySplitextL s.data).2)

/-- Models Python `"\n\n".join(l)`. -/
def joinNN : List String → String
  | [] => ""
  | [a] => a
  | a :: rest => a ++ "\n\n" ++ joinNN rest

theorem data_mk (l : List Char) : (String.mk l).data = l := rfl

theorem length_data (s : String) : s.length = s.data.length := rfl

theorem data_append (a b : String) : (a ++ b).data = a.data ++ b.data := rfl

theorem length_append' (a b : String) : (a ++ b).length = a.length + b.length := by
  rw [length_data, length_data, length_data, data_append]
  exact List.length_append a.data b.data

/-! ### Constants of `src/main.py` -/

/-- `MAX_FILE_SIZE = 20 * 1024 * 1024` (src/main.py line 31). -/
def MAX_FILE_SIZE : Nat := 20 * 1024 * 1024

/-- `SUPPORTED_FORMATS = {'.jpg', '.jpeg', '.png', '.gif'}` (line 32);
a Python set, modelled as a list used only through membership. -/
def SUPPORTED_FORMATS : List String := [".jpg", ".jpeg", ".png", ".gif"]

/-- `MAX_GIF_FRAMES = 5` (line 33). -/
def MAX_GIF_FRAMES : Nat := 5

/-! ### `ImageAnalyzer.parse_analysis_results` (lines 233-283) -/

/-- The result dictionary of `parse_analysis_results`: it always has exactly
these five keys, in this insertion order (see `AnalysisResults.toPairs`). -/
structure AnalysisResults where
  realistic_photo : String
  illustration : String
  main_object : String
  background_color : String
  discount_message : String
deriving DecidableEq, Repr

/-- The dictionary as an ordered key/value list (Python dicts keep insertion
order). -/
def AnalysisResults.toPairs (r : AnalysisResults) : List (String × String) :=
  [("realistic_photo", r.realistic_photo), ("illustration", r.illustration),
   ("main_object", r.main_object), ("background_color", r.background_color),
   ("discount_message", r.discount_message)]

/-- `colors_map` of the `г.` branch (lines 266-270), in insertion order. -/
def colors_map : List (String × String) :=
  [("белый", "white"), ("черный", "black"), ("красный", "red"),
   ("синий", "blue"), ("зеленый", "green"), ("желтый", "yellow"),
   ("серый", "gray"), ("коричневый", "brown"), ("розовый", "pink")]

/-- One iteration of the `for line in lines` body of `parse_analysis_results`,
on the already stripped line. -/
def parseStepCore (r : AnalysisResults) (line : String) : AnalysisResults :=
  if pyStartsWith "а." line = true then
    { r with realistic_photo := if hasSub "да" (pyLower line) = true then "yes" else "no" }
  else if pyStartsWith "б." line = true then
    { r with illustration := if hasSub "да" (pyLower line) = true then "yes" else "no" }
  else if pyStartsWith "в." line = true then
    let obj_text := pyLower (pyStrip (pyDrop 2 line))
    if hasSub "люди" obj_text = true ∨ hasSub "человек" obj_text = true then
      { r with main_object := "people" }
    else if (["телефон", "компьютер", "машина", "автомобиль"].any
        (fun w => hasSub w obj_text)) = true then
      { r with main_object := "tech" }
    else if (["еда", "продукт", "товар", "одежда"].any
        (fun w => hasSub w obj_text)) = true then
      { r with main_object := "product" }
    else
      match pyWords obj_text with
      | [] => r
      | w :: _ => { r with main_object := pyTake 10 w }
  else if pyStartsWith "г." line = true then
    let color_text := pyLower (pyStrip (pyDrop 2 line))
    match colors_map.find? (fun p => hasSub p.1 color_text) with
    | some p => { r with background_color := p.2 }
    | none =>
      match pyWords color_text with
      | [] => r
      | w :: _ => { r with background_color := pyTake 8 w }
  else if pyStartsWith "д." line = true then
    { r with discount_message := if hasSub "да" (pyLower line) = true then "yes" else "no" }
  else r

/-- One loop iteration on a raw line (the body first does `line = line.strip()`). -/
def parseStep (r : AnalysisResults) (rawLine : String) : AnalysisResults :=
  parseStepCore r (pyStrip rawLine)

/-- `ImageAnalyzer.parse_analysis_results` (lines 233-283). -/
def parse_analysis_results (analysis_text : String) : AnalysisResults :=
  (pySplitLines analysis_text).foldl parseStep
    ⟨"unknown", "unknown", "unknown", "unknown", "unknown"⟩

/-! ### `ImageAnalyzer.create_new_filename` (lines 285-306) -/

/-- `ImageAnalyzer.create_new_filename`. -/
def create_new_filename (original_filename : String) (ar : AnalysisResults) : String :=
  let name := (pySplitext original_filename).1
  let ext := (pySplitext original_filename).2
  let photo := if ar.realistic_photo = "yes" then "1" else "0"
  let illus := if ar.illustration = "yes" then "1" else "0"
  let obj := ar.main_object
  let color := ar.background_color
  let sale := if ar.discount_message = "yes" then "1" else "0"
  let clean_name := pyTake 20 (String.mk (name.data.filter
    (fun c => pyIsAlnum c || c == '-' || c == '_')))
  let gifTag := if pyLower ext = ".gif" then "GIF-" else ""
  gifTag ++ ("R" ++ (photo ++ ("-I" ++ (illus ++ ("-" ++ (obj ++ ("-" ++ (color ++
    ("-S" ++ (sale ++ ("_" ++ (clean_name ++ ext))))))))))))

/-! ### `ImageAnalyzer.extract_gif_frames` (lines 104-136)

PIL is external; a decoded GIF is modelled as the data the code reads from
it: the `is_animated` flag, `n_frames`, and oracles for re-encoding a frame
as PNG (`seek`/`convert`/`save`, which can raise → `Option`) and for saving
a non-animated image (`copy`/`save`). -/

structure PILGif where
  isAnimated : Bool
  nFrames : Nat
  encodeFrame : Nat → Option (List Nat)
  encodeStill : Option (List Nat)

/-- Models Python `range(0, stop, step)` for `step ≥ 1`. -/
def pyRangeStep (stop step : Nat) : List Nat :=
  List.range' 0 ((stop + step - 1) / step) step

/-- The `for frame_idx in selected_frames` loop: on the first frame whose
re-encoding raises, the surrounding `except` returns the frames collected
so far. -/
def collectFrames (enc : Nat → Option (List Nat)) : List Nat → List (List Nat)
  | [] => []
  | i :: rest =>
    match enc i with
    | none => []
    | some b => b :: collectFrames enc rest

/-- `ImageAnalyzer.extract_gif_frames`; `none` for the decode argument models
`Image.open` raising (caught: the empty list collected so far is returned). -/
def extract_gif_frames (g : Option PILGif) : List (List Nat) :=
  match g with
  | none => []
  | some img =>
    if img.isAnimated = false then
      match img.encodeStill with
      | none => []
      | some b => [b]
    else
      let step := max 1 (img.nFrames / MAX_GIF_FRAMES)
      let selected := (pyRangeStep img.nFrames step).take MAX_GIF_FRAMES
      collectFrames img.encodeFrame selected

/-! ### `ImageAnalyzer.analyze_image` and the GIF analysis path (lines 39-231)

The OpenAI calls are oracles: each either returns the reply content or
raises with a message (`Except`). -/

structure VisionEnv where
  /-- The per-frame chat call of `analyze_gif_frames` (lines 150-183). -/
  frameApi : List Nat → Except String String
  /-- The chat call of `combine_frame_analyses` (lines 204-222),
  on the combined text. -/
  combineApi : String → Except String String
  /-- The chat call of `analyze_image` for a plain image (lines 54-87),
  on the raw bytes (base64 encoding cannot fail). -/
  imageApi : List Nat → Except String String
  /-- PIL decoding of GIF bytes. -/
  decodeGif : List Nat → Option PILGif

/-- The per-frame loop of `analyze_gif_frames` (lines 147-189): builds
`frame_analyses`, or propagates the first exception to the method's
`except` clause.  `i` is the 1-based frame label of the f-string. -/
def runFrames (fapi : List Nat → Except String String) :
    List (List Nat) → Nat → Except String (List String)
  | [], _ => Except.ok []
  | f :: rest, i =>
    match fapi f with
    | Except.error e => Except.error e
    | Except.ok c =>
      match runFrames fapi rest (i + 1) with
      | Except.error e => Except.error e
      | Except.ok as => Except.ok (("Кадр " ++ natStr i ++ ":\n" ++ pyStrip c) :: as)

/-- `ImageAnalyzer.combine_frame_analyses` (lines 199-231): on an exception
it falls back to the first frame's analysis. -/
def combine_frame_analyses (capi : String → Except String String)
    (frame_analyses : List String) : String :=
  match capi (joinNN frame_analyses) with
  | Except.ok c => pyStrip c
  | Except.error _ =>
    match frame_analyses with
    | [] => "Ошибка при объединении анализа кадров"
    | a :: _ => a

/-- `ImageAnalyzer.analyze_gif_frames` (lines 138-197). -/
def analyze_gif_frames (fapi : List Nat → Except String String)
    (capi : String → Except String String) (frames : List (List Nat)) : String :=
  if frames.isEmpty then "Ошибка: не удалось извлечь кадры из GIF"
  else
    match runFrames fapi frames 1 with
    | Except.error e => "Ошибка при анализе GIF: " ++ e
    | Except.ok as => combine_frame_analyses capi as

/-- `ImageAnalyzer.analyze_image` (lines 39-93). -/
def analyze_image (env : VisionEnv) (image_data : List Nat) (filename : String) : String :=
  if pyEndsWith ".gif" (pyLower filename) = true then
    let frames := extract_gif_frames (env.decodeGif image_data)
    if frames.isEmpty then "Ошибка: не удалось извлечь кадры из GIF файла"
    else analyze_gif_frames env.frameApi env.combineApi frames
  else
    match env.imageApi image_data with
    | Except.ok content => pyStrip content
    | Except.error e => "Ошибка при анализе изображения: " ++ e

/-! ### `TelegramBot.extract_images_from_zip` (lines 359-397)

A ZIP archive is modelled as the list of its entries; `content = none`
models `zip_file.read` raising (the entry is skipped).  The PIL validity
check `is_valid_image` is external and passed as an oracle `valid`. -/

structure ZipEntry where
  filename : String
  isDir : Bool
  content : Option (List Nat)
deriving DecidableEq

/-- The per-entry filter of the `extract_images_from_zip` loop: directories,
unsupported extensions, unreadable entries and invalid images are skipped
(`continue`), everything else is collected. -/
def keepEntry (valid : List Nat → Bool) (e : ZipEntry) : Option (String × List Nat) :=
  if e.isDir = true then none
  else if (pySplitext (pyLower e.filename)).2 ∈ SUPPORTED_FORMATS then
    match e.content with
    | none => none
    | some d => if valid d = true then some (e.filename, d) else none
  else none

/-- The entry loop of `extract_images_from_zip`, with the images collected
so far; collection stops as soon as 10 images are gathered. -/
def extractAux (valid : List Nat → Bool) :
    List ZipEntry → List (String × List Nat) → List (String × List Nat)
  | [], acc => acc
  | e :: rest, acc =>
    match keepEntry valid e with
    | none => extractAux valid rest acc
    | some p =>
      if 10 ≤ (acc ++ [p]).length then acc ++ [p]
      else extractAux valid rest (acc ++ [p])

/-- `TelegramBot.extract_images_from_zip`. -/
def extract_images_from_zip (valid : List Nat → Bool) (entries : List ZipEntry) :
    List (String × List Nat) :=
  extractAux valid entries []

/-! ### `TelegramBot` formatting helpers (lines 496-558) -/

/-- The `special_chars` list of `escape_markdown` (line 530), in order. -/
def special_chars : List Char := "_*[]()~\x60>#+-=|\x7b\x7d.!".data

/-- `TelegramBot.escape_markdown` (lines 528-533): sequential replaces. -/
def escape_markdown (text : String) : String :=
  special_chars.foldl (fun t c => pyReplace t (String.mk [c]) (String.mk ['\\', c])) text

/-- The answer-line markers tuple of `format_results_table` (line 514). -/
def analysis_markers : List String := ["а.", "б.", "в.", "г.", "д."]

/-- The `formatted_analysis` accumulation of `format_results_table`
(lines 509-517). -/
def formattedAnalysis (desc : String) : String :=
  (pySplitLines desc).foldl (fun acc raw =>
    let line := pyStrip raw
    if line ≠ "" ∧ pyStartsWith "Ошибка" line = false then
      if (analysis_markers.any (fun p => pyStartsWith p line)) = true then
        acc ++ "  " ++ escape_markdown line ++ "\n"
      else acc ++ escape_markdown line ++ "\n"
    else acc) ""

/-- `"─" * 40` (line 524). -/
def dashLine : String := String.mk (List.replicate 40 '─')

/-- One result block of `format_results_table` (lines 505-524),
`i` being the 1-based index. -/
def rowFor (i : Nat) (fn desc : String) : String :=
  "*" ++ natStr i ++ "\\. " ++ escape_markdown fn ++ "*\n" ++
    (if pyStrip (formattedAnalysis desc) ≠ "" then
      "📋 *Анализ:*\n" ++ formattedAnalysis desc ++ "\n"
    else "📝 " ++ escape_markdown desc ++ "\n\n") ++
    dashLine ++ "\n\n"

/-- The `for i, (filename, description) in enumerate(results, 1)` loop. -/
def tableRows : Nat → List (String × String) → String
  | _, [] => ""
  | i, (fn, desc) :: rest => rowFor i fn desc ++ tableRows (i + 1) rest

/-- `TelegramBot.format_results_table` (lines 496-526); `now` stands for
`datetime.now().strftime('%d.%m.%Y %H:%M:%S')`. -/
def format_results_table (results : List (String × String)) (now : String) : String :=
  if results.isEmpty then "❌ Нет результатов для отображения."
  else
    "📊 *Результаты анализа изображений*\n\n" ++
    "🕒 Время обработки: " ++ now ++ "\n" ++
    "📁 Обработано файлов: " ++ natStr results.length ++ "\n\n" ++
    tableRows 1 results

/-- The inner `while len(line) > max_length` loop of `split_message`
(lines 548-550): chops `max_length`-sized chunks off the front and returns
them together with the remainder.  (For `max_length = 0` the Python loop
would not terminate; the model requires `0 < ml` to recurse.) -/
def chunkLoop (ml : Nat) (line : String) : List String × String :=
  if h : 0 < ml ∧ ml < line.length then
    let r := chunkLoop ml (pyDrop ml line)
    (pyTake ml line :: r.1, r.2)
  else ([], line)
termination_by line.length
decreasing_by
  simp only [pyDrop, length_data, data_mk, List.length_drop] at h ⊢
  omega

/-- The `for line in lines` loop of `split_message` (lines 541-556),
with the parts produced so far and the current part. -/
def smLoop (ml : Nat) : List String → List String → String → List String
  | [], parts, current => if current ≠ "" then parts ++ [pyStrip current] else parts
  | line :: rest, parts, current =>
    if ml < (current ++ line ++ "\n").length then
      if current ≠ "" then smLoop ml rest (parts ++ [pyStrip current]) (line ++ "\n")
      else smLoop ml rest (parts ++ (chunkLoop ml line).1) ((chunkLoop ml line).2 ++ "\n")
    else smLoop ml rest parts (current ++ line ++ "\n")

/-- `TelegramBot.split_message` (lines 535-558). -/
def split_message (text : String) (max_length : Nat) : List String :=
  smLoop max_length (pySplitLines text) [] ""

/-! ### `TelegramBot.create_renamed_zip` (lines 560-615) -/

/-- `f"{name}_{counter:03d}{ext}"` (line 579): the disambiguation candidate
for counter `c`. -/
def candName (stem ext : String) (c : Nat) : String :=
  stem ++ ("_" ++ (pad3 c ++ ext))

/-- The maximal length of a string in a list (helper for termination of the
collision loop and for `split_message` bounds). -/
def maxLenStr (l : List String) : Nat := (l.map String.length).foldr max 0

theorem mem_length_le_maxLenStr {x : String} {l : List String} (h : x ∈ l) :
    x.length ≤ maxLenStr l := by
  induction l with
  | nil => cases h
  | cons a t ih =>
    rcases List.mem_cons.mp h with rfl | hm
    · exact le_max_left _ _
    · exact le_trans (ih hm) (le_max_right _ _)

theorem natDigitsAux_len_ge :
    ∀ (k fuel n : Nat), n ≤ fuel → 10 ^ k ≤ n → k + 1 ≤ (natDigitsAux fuel n).length := by
  intro k
  induction k with
  | zero =>
    intro fuel n hf h1
    rw [pow_zero] at h1
    cases n with
    | zero => omega
    | succ m =>
      cases fuel with
      | zero => omega
      | succ f => simp [natDigitsAux]
  | succ k ih =>
    intro fuel n hf hp
    have hn10 : 10 ≤ n := by
      have h10 : 10 ≤ 10 ^ (k + 1) := by
        calc 10 = 10 ^ 1 := (pow_one 10).symm
          _ ≤ 10 ^ (k + 1) := Nat.pow_le_pow_right (by omega) (by omega)
      omega
    cases n with
    | zero => omega
    | succ m =>
      cases fuel with
      | zero => omega
      | succ f =>
        have hdiv : 10 ^ k ≤ (m + 1) / 10 := by
          rw [Nat.le_div_iff_mul_le (by omega)]
          calc 10 ^ k * 10 = 10 ^ (k + 1) := (pow_succ 10 k).symm
            _ ≤ m + 1 := hp
        have hlt : (m + 1) / 10 < m + 1 := Nat.div_lt_self (by omega) (by omega)
        have hfu : (m + 1) / 10 ≤ f := by omega
        have := ih f ((m + 1) / 10) hfu hdiv
        simp only [natDigitsAux, List.length_cons]
        omega

theorem natStr_len_ge {k n : Nat} (h : 10 ^ k ≤ n) : k + 1 ≤ (natStr n).length := by
  have hn : n ≠ 0 := by
    have : 0 < 10 ^ k := Nat.pos_pow_of_pos k (by omega)
    omega
  simp only [natStr, if_neg hn, length_data, data_mk, List.length_reverse]
  exact natDigitsAux_len_ge k n n le_rfl h

theorem natStr_len_le_pad3 (n : Nat) : (natStr n).length ≤ (pad3 n).length := by
  simp only [pad3]
  split
  · simp [length_append']
  · exact le_rfl

theorem pad3_le_candName (stem ext : String) (c : Nat) :
    (pad3 c).length ≤ (candName stem ext c).length := by
  simp only [candName, length_append']
  omega

/-- The collision loop of `create_renamed_zip` (lines 576-580) always finds a
fresh name: a candidate with a long enough counter is longer than every used
name. -/
theorem exists_free_candidate (used : List String) (stem ext : String) :
    ∃ c : Nat, candName stem ext (c + 1) ∉ used := by
  refine ⟨10 ^ (maxLenStr used + 1) - 1, fun hmem => ?_⟩
  have hpow : 0 < 10 ^ (maxLenStr used + 1) := Nat.pos_pow_of_pos _ (by omega)
  have hc : (10 ^ (maxLenStr used + 1) - 1) + 1 = 10 ^ (maxLenStr used + 1) := by omega
  have hlen : maxLenStr used + 2 ≤ (candName stem ext ((10 ^ (maxLenStr used + 1) - 1) + 1)).length := by
    rw [hc]
    exact le_trans (le_trans (natStr_len_ge le_rfl) (natStr_len_le_pad3 _))
      (pad3_le_candName stem ext _)
  have := mem_length_le_maxLenStr hmem
  omega

/-- The `while new_filename in used_names` loop (lines 576-580): keep the name
if it is fresh, otherwise take the first free disambiguation candidate
(counters are tried in the order 1, 2, 3, …). -/
def dedupName (used : List String) (nm : String) : String :=
  if nm ∈ used then
    candName (pySplitext nm).1 (pySplitext nm).2
      (Nat.find (exists_free_candidate used (pySplitext nm).1 (pySplitext nm).2) + 1)
  else nm

/-- Payload of a ZIP entry written by `create_renamed_zip`: image bytes or
the README text. -/
inductive FileData where
  | bin : List Nat → FileData
  | txt : String → FileData
deriving DecidableEq

/-- The image loop of `create_renamed_zip` (lines 565-585), carrying
`used_names` and the entries written so far. -/
def renamedLoop : List (String × List Nat × String) → List String →
    List (String × FileData) → List (String × FileData)
  | [], _, acc => acc
  | (fn, d, analysis) :: rest, used, acc =>
    let nf := dedupName used (create_new_filename fn (parse_analysis_results analysis))
    renamedLoop rest (used ++ [nf]) (acc ++ [(nf, FileData.bin d)])

/-- The `readme_content` literal (lines 588-611). -/
def readme_content : String :=
  "Схема именования файлов:\n\nR[0/1] - Реалистичное фото (1=да, 0=нет)\nI[0/1] - Иллюстрация (1=да, 0=нет)  \n[obj] - Основной объект (people/tech/product/другое)\n[color] - Цвет фона (white/black/red/blue/и т.д.)\nS[0/1] - Скидка/выгода (1=да, 0=нет)\n\nДля GIF анимаций добавляется префикс \"GIF-\"\nАнализ GIF проводится по ключевым кадрам (макс. 5 кадров)\nЮридические дисклеймеры и предупреждения игнорируются\n\nПримеры:\n- R1-I0-people-blue-S0_photo123.jpg (обычное фото)\n- GIF-R0-I1-tech-white-S1_banner.gif (GIF анимация)\n\nОзначает: \n- реалистичное фото/иллюстрация\n- люди/техника как основной объект\n- синий/белый фон\n- нет/есть скидки/промо\n\nСоздано ботом анализа изображений\n"

/-- `TelegramBot.create_renamed_zip` (lines 560-615): the produced archive,
modelled as its ordered list of (name, payload) entries. -/
def create_renamed_zip (images_with_analysis : List (String × List Nat × String)) :
    List (String × FileData) :=
  renamedLoop images_with_analysis [] [] ++
    [("README_naming_scheme.txt", FileData.txt readme_content)]

/-! ### `TelegramBot.process_zip_file` (lines 399-494)

The messages the handler sends to the user (`reply_text` / `send_document`);
the transient progress message (`edit_text`, deleted at line 462) is not part
of the conversation result. -/

inductive Out where
  | text : String → Out
  | doc : String → List (String × FileData) → Out
deriving DecidableEq

/-- The derived archive name (lines 481-482); `now` stands for
`datetime.now().strftime('%Y%m%d_%H%M%S')`. -/
def derive_archive_name (file_name now : String) : String :=
  pyReplace file_name ".zip" "" ++ "_analyzed_" ++ now ++ ".zip"

/-- `TelegramBot.process_zip_file` on an already downloaded document, with
the analyzer's vision call abstracted as `analyze data filename` (the
result string of `analyze_image`). -/
def process_zip_file (valid : List Nat → Bool) (analyze : List Nat → String → String)
    (now : String) (file_name : String) (file_size : Nat) (entries : List ZipEntry) :
    List Out :=
  if pyEndsWith ".zip" (pyLower file_name) = false then
    [Out.text "❌ Пожалуйста, отправьте файл с расширением .zip"]
  else if MAX_FILE_SIZE < file_size then
    [Out.text "❌ Файл слишком большой. Максимальный размер: 20MB"]
  else
    let images := extract_images_from_zip valid entries
    if images.isEmpty then
      [Out.text "❌ В архиве не найдено валидных изображений (JPG/PNG)."]
    else
      let results := images.map (fun p => (p.1, analyze p.2 p.1))
      let table := format_results_table results now
      (if 4096 < table.length then (split_message table 4096).map Out.text
       else [Out.text table]) ++
      [Out.text ("📤 *Переименованный архив готов к скачиванию!*\n\n" ++
        "📁 Файлы переименованы согласно результатам анализа\n" ++
        "📋 В архиве есть README с расшифровкой схемы именования"),
       Out.doc (derive_archive_name file_name now)
         (create_renamed_zip (images.map (fun p => (p.1, p.2, analyze p.2 p.1))))]

/-- The names of the documents sent. -/
def docNamesOf (outs : List Out) : List String :=
  outs.filterMap (fun o => match o with
    | Out.doc n _ => some n
    | Out.text _ => none)

/-! ### Object state (claim C8)

`ImageAnalyzer.__init__` stores only the OpenAI client; `TelegramBot.__init__`
stores only the analyzer (lines 35-37, 308-310).  No other attribute is ever
assigned, so every method is translated as a state-passing function returning
the object state it was given. -/

structure ImageAnalyzerObj where
  openai_client : Nat
deriving DecidableEq

structure TelegramBotObj where
  analyzer : ImageAnalyzerObj
deriving DecidableEq

/-- One archive-processing job (the downloaded document). -/
structure ZipJob where
  file_name : String
  file_size : Nat
  entries : List ZipEntry

def ImageAnalyzerObj.parse_analysis_resultsM (self : ImageAnalyzerObj)
    (t : String) : ImageAnalyzerObj × AnalysisResults :=
  (self, parse_analysis_results t)

def ImageAnalyzerObj.create_new_filenameM (self : ImageAnalyzerObj)
    (fn : String) (ar : AnalysisResults) : ImageAnalyzerObj × String :=
  (self, create_new_filename fn ar)

def ImageAnalyzerObj.analyze_imageM (self : ImageAnalyzerObj) (env : VisionEnv)
    (d : List Nat) (fn : String) : ImageAnalyzerObj × String :=
  (self, analyze_image env d fn)

def TelegramBotObj.extract_images_from_zipM (self : TelegramBotObj)
    (valid : List Nat → Bool) (entries : List ZipEntry) :
    TelegramBotObj × List (String × List Nat) :=
  (self, extract_images_from_zip valid entries)

def TelegramBotObj.process_zip_fileM (self : TelegramBotObj)
    (valid : List Nat → Bool) (analyze : List Nat → String → String)
    (now : String) (job : ZipJob) : TelegramBotObj × List Out :=
  (self, process_zip_file valid analyze now job.file_name job.file_size job.entries)

/-- Processing a sequence of archives, threading the bot state through. -/
def TelegramBotObj.processArchivesM (self : TelegramBotObj)
    (valid : List Nat → Bool) (analyze : List Nat → String → String)
    (now : String) : List ZipJob → TelegramBotObj × List (List Out)
  | [] => (self, [])
  | j :: rest =>
    let r1 := self.process_zip_fileM valid analyze now j
    let r2 := r1.1.processArchivesM valid analyze now rest
    (r2.1, r1.2 :: r2.2)

/-! ## Claims -/

/-! ### C2 : the new filename encodes the classification results -/

theorem pySplitextL_append (l : List Char) :
    (pySplitextL l).1 ++ (pySplitextL l).2 = l := by
  unfold pySplitextL
  cases h : rfind '.' l with
  | none => simp
  | some d =>
    simp only
    split
    · split
      · exact List.take_append_drop d l
      · simp
    · simp

theorem pySplitext_append (s : String) :
    (pySplitext s).1 ++ (pySplitext s).2 = s := by
  have h1 : (pySplitext s).1 ++ (pySplitext s).2 =
      String.mk ((pySplitextL s.data).1 ++ (pySplitextL s.data).2) := rfl
  rw [h1, pySplitextL_append]

/-- C2: `create_new_filename` returns
`[GIF-]R{0|1}-I{0|1}-{obj}-{color}-S{0|1}_{clean_name}{ext}`: each flag is
`1` exactly when the corresponding parsed field is `"yes"`, the `GIF-`
prefix appears exactly when the original extension lowercases to `.gif`,
`clean_name` is the base name restricted to alphanumerics, `-`, `_` and cut
to 20 characters, and `ext` is the original extension unchanged (the second
conjunct shows the `(name, ext)` split really is a split of the original
filename). -/
theorem c2_create_new_filename (orig : String) (ar : AnalysisResults) :
    create_new_filename orig ar =
      (if pyLower (pySplitext orig).2 = ".gif" then "GIF-" else "") ++
      ("R" ++ ((if ar.realistic_photo = "yes" then "1" else "0") ++
      ("-I" ++ ((if ar.illustration = "yes" then "1" else "0") ++
      ("-" ++ (ar.main_object ++ ("-" ++ (ar.background_color ++
      ("-S" ++ ((if ar.discount_message = "yes" then "1" else "0") ++
      ("_" ++ (pyTake 20 (String.mk ((pySplitext orig).1.data.filter
        (fun c => pyIsAlnum c || c == '-' || c == '_'))) ++
      (pySplitext orig).2)))))))))))) ∧
    (pySplitext orig).1 ++ (pySplitext orig).2 = orig :=
  ⟨rfl, pySplitext_append orig⟩

/-! ### C3 : at most 10 images; extraction stops at 10 -/

theorem extractAux_length_le (valid : List Nat → Bool) :
    ∀ (entries : List ZipEntry) (acc : List (String × List Nat)),
      acc.length ≤ 9 → (extractAux valid entries acc).length ≤ 10 := by
  intro entries
  induction entries with
  | nil => intro acc h; simp only [extractAux]; omega
  | cons e rest ih =>
    intro acc h
    cases hk : keepEntry valid e with
    | none => simpa only [extractAux, hk] using ih acc h
    | some p =>
      simp only [extractAux, hk]
      by_cases hl : 10 ≤ (acc ++ [p]).length
      · rw [if_pos hl]
        simp only [List.length_append, List.length_cons, List.length_nil]
        omega
      · rw [if_neg hl]
        apply ih
        simp only [List.length_append, List.length_cons, List.length_nil] at hl ⊢
        omega

theorem extractAux_stop (valid : List Nat → Bool) :
    ∀ (entries extra : List ZipEntry) (acc : List (String × List Nat)),
      acc.length ≤ 9 → 10 ≤ (extractAux valid entries acc).length →
      extractAux valid (entries ++ extra) acc = extractAux valid entries acc := by
  intro entries
  induction entries with
  | nil =>
    intro extra acc h h10
    simp only [extractAux] at h10
    omega
  | cons e rest ih =>
    intro extra acc h h10
    rw [List.cons_append]
    cases hk : keepEntry valid e with
    | none =>
      simp only [extractAux, hk] at h10 ⊢
      exact ih extra acc h h10
    | some p =>
      simp only [extractAux, hk] at h10 ⊢
      by_cases hl : 10 ≤ (acc ++ [p]).length
      · rw [if_pos hl, if_pos hl]
      · rw [if_neg hl] at h10
        rw [if_neg hl, if_neg hl]
        apply ih extra (acc ++ [p]) ?_ h10
        simp only [List.length_append, List.length_cons, List.length_nil] at hl ⊢
        omega

/-- C3: `extract_images_from_zip` returns at most 10 pairs, and once 10 have
been collected any further entries of the archive are never consulted. -/
theorem c3_extract_limit (valid : List Nat → Bool) (entries : List ZipEntry) :
    (extract_images_from_zip valid entries).length ≤ 10 ∧
    ((extract_images_from_zip valid entries).length = 10 →
      ∀ extra : List ZipEntry,
        extract_images_from_zip valid (entries ++ extra) =
          extract_images_from_zip valid entries) := by
  constructor
  · exact extractAux_length_le valid entries [] (by simp)
  · intro h10 extra
    have h10' : 10 ≤ (extractAux valid entries []).length := by
      rw [show extract_images_from_zip valid entries = extractAux valid entries [] from rfl] at h10
      omega
    exact extractAux_stop valid entries extra [] (by simp) h10'

/-- Ten single-byte images, all accepted by the validity oracle. -/
def zipEntriesW : List ZipEntry :=
  (List.range 10).map (fun i => ⟨natStr i ++ ".jpg", false, some [i]⟩)

theorem c3_witness :
    extract_images_from_zip (fun _ => true) (zipEntriesW ++ [⟨"z.jpg", false, some [99]⟩]) =
      extract_images_from_zip (fun _ => true) zipEntriesW :=
  (c3_extract_limit (fun _ => true) zipEntriesW).2 (by decide) [⟨"z.jpg", false, some [99]⟩]

/-! ### C4 : the extraction filter -/

theorem ruLower_fix_iff (ch : Char) (hch : ∀ q ∈ lowerTable, q.2 ≠ ch)
    (hfind : lowerTable.find? (fun p => p.1 == ch) = none) (c : Char) :
    ruLower c = ch ↔ c = ch := by
  unfold ruLower
  cases hf : lowerTable.find? (fun p => p.1 == c) with
  | none => exact Iff.rfl
  | some p =>
    have hp : p ∈ lowerTable := List.mem_of_find?_eq_some hf
    constructor
    · intro h
      exact absurd h (hch p hp)
    · intro h
      subst h
      rw [hfind] at hf
      cases hf

theorem ruLower_dot (c : Char) : ruLower c = '.' ↔ c = '.' :=
  ruLower_fix_iff '.' (by decide) (by decide) c

theorem ruLower_slash (c : Char) : ruLower c = '/' ↔ c = '/' :=
  ruLower_fix_iff '/' (by decide) (by decide) c

theorem rfindAux_map (ch : Char) (f : Char → Char) (hf : ∀ c, f c = ch ↔ c = ch) :
    ∀ (l : List Char) (i : Nat), rfindAux ch (l.map f) i = rfindAux ch l i := by
  intro l
  induction l with
  | nil => intro i; rfl
  | cons a t ih =>
    intro i
    simp only [List.map_cons, rfindAux, ih]
    cases h : rfindAux ch t (i + 1) with
    | some j => rfl
    | none => exact if_congr (hf a) rfl rfl

theorem rfind_map (ch : Char) (f : Char → Char) (hf : ∀ c, f c = ch ↔ c = ch)
    (l : List Char) : rfind ch (l.map f) = rfind ch l :=
  rfindAux_map ch f hf l 0

theorem anyCongr {α : Type} (L : List α) (f g : α → Bool)
    (h : ∀ x ∈ L, f x = g x) : L.any f = L.any g := by
  induction L with
  | nil => rfl
  | cons a t ih =>
    simp only [List.any_cons]
    rw [h a (List.mem_cons_self a t), ih (fun x hx => h x (List.mem_cons_of_mem a hx))]

theorem extSepIdx_map (f : Char → Char) (hf : ∀ c, f c = '/' ↔ c = '/')
    (l : List Char) : extSepIdx (l.map f) = extSepIdx l := by
  unfold extSepIdx
  rw [rfind_map '/' f hf]

theorem pySplitextL_eq_none (l : List Char) (h : rfind '.' l = none) :
    pySplitextL l = (l, []) := by
  unfold pySplitextL
  rw [h]

theorem pySplitextL_eq_some (l : List Char) (d : Nat) (h : rfind '.' l = some d) :
    pySplitextL l =
      (if extSepIdx l ≤ d then
        if (List.range (d - extSepIdx l)).any
            (fun o => decide (l.get? (extSepIdx l + o) ≠ some '.')) then
          (l.take d, l.drop d)
        else (l, [])
      else (l, [])) := by
  unfold pySplitextL
  rw [h]

theorem pySplitextL_map (f : Char → Char) (hdot : ∀ c, f c = '.' ↔ c = '.')
    (hslash : ∀ c, f c = '/' ↔ c = '/') (l : List Char) :
    pySplitextL (l.map f) = ((pySplitextL l).1.map f, (pySplitextL l).2.map f) := by
  have hrf : rfind '.' (l.map f) = rfind '.' l := rfind_map '.' f hdot l
  cases hd : rfind '.' l with
  | none =>
    rw [pySplitextL_eq_none (l.map f) (by rw [hrf, hd]), pySplitextL_eq_none l hd]
    simp
  | some d =>
    rw [pySplitextL_eq_some (l.map f) d (by rw [hrf, hd]), pySplitextL_eq_some l d hd,
      extSepIdx_map f hslash]
    have hany : (List.range (d - extSepIdx l)).any
        (fun o => decide ((l.map f).get? (extSepIdx l + o) ≠ some '.')) =
        (List.range (d - extSepIdx l)).any
        (fun o => decide (l.get? (extSepIdx l + o) ≠ some '.')) := by
      apply anyCongr
      intro o ho
      rw [decide_eq_decide, List.get?_map]
      cases hx : l.get? (extSepIdx l + o) with
      | none => simp
      | some c => simp [hdot c]
    rw [hany]
    by_cases hsd : extSepIdx l ≤ d
    · rw [if_pos hsd, if_pos hsd]
      by_cases ha : ((List.range (d - extSepIdx l)).any
          (fun o => decide (l.get? (extSepIdx l + o) ≠ some '.'))) = true
      · rw [if_pos ha, if_pos ha]
        simp [List.map_take, List.map_drop]
      · rw [if_neg ha, if_neg ha]
        simp
    · rw [if_neg hsd, if_neg hsd]
      simp

theorem pySplitext_pyLower (s : String) :
    pySplitext (pyLower s) = (pyLower (pySplitext s).1, pyLower (pySplitext s).2) := by
  unfold pySplitext pyLower
  rw [data_mk, pySplitextL_map ruLower ruLower_dot ruLower_slash]

theorem keepEntry_some (valid : List Nat → Bool) (e : ZipEntry) (fn : String)
    (d : List Nat) (h : keepEntry valid e = some (fn, d)) :
    e.isDir = false ∧ e.filename = fn ∧ e.content = some d ∧
    (pySplitext (pyLower fn)).2 ∈ SUPPORTED_FORMATS ∧ valid d = true := by
  unfold keepEntry at h
  by_cases h1 : e.isDir = true
  · rw [if_pos h1] at h; cases h
  · rw [if_neg h1] at h
    by_cases h2 : (pySplitext (pyLower e.filename)).2 ∈ SUPPORTED_FORMATS
    · rw [if_pos h2] at h
      cases hc : e.content with
      | none =>
        rw [hc] at h
        replace h : (none : Option (String × List Nat)) = some (fn, d) := h
        cases h
      | some d0 =>
        rw [hc] at h
        replace h : (if valid d0 = true then some (e.filename, d0) else none) =
          some (fn, d) := h
        by_cases h3 : valid d0 = true
        · rw [if_pos h3] at h
          injection h with h4
          have hfn : e.filename = fn := congrArg Prod.fst h4
          have hd0 : d0 = d := congrArg Prod.snd h4
          refine ⟨by simpa using h1, hfn, ?_, ?_, ?_⟩
          · rw [hd0]
          · rw [← hfn]; exact h2
          · rw [← hd0]; exact h3
        · rw [if_neg h3] at h; cases h
    · rw [if_neg h2] at h; cases h

theorem keepEntry_none (valid : List Nat → Bool) (e : ZipEntry)
    (h : e.isDir = true ∨ (pySplitext (pyLower e.filename)).2 ∉ SUPPORTED_FORMATS ∨
      e.content = none ∨ (∀ d, e.content = some d → valid d = false)) :
    keepEntry valid e = none := by
  unfold keepEntry
  by_cases h1 : e.isDir = true
  · rw [if_pos h1]
  · rw [if_neg h1]
    by_cases h2 : (pySplitext (pyLower e.filename)).2 ∈ SUPPORTED_FORMATS
    · rw [if_pos h2]
      cases hc : e.content with
      | none => rfl
      | some d =>
        rcases h with h1' | h2' | h3' | h4'
        · exact absurd h1' h1
        · exact absurd h2 h2'
        · rw [hc] at h3'; cases h3'
        · have hv := h4' d hc
          show (if valid d = true then some (e.filename, d) else none) = none
          rw [hv]
          simp
    · rw [if_neg h2]

theorem extractAux_mem (valid : List Nat → Bool) :
    ∀ (entries : List ZipEntry) (acc : List (String × List Nat))
      (fn : String) (d : List Nat),
      (fn, d) ∈ extractAux valid entries acc →
      (fn, d) ∈ acc ∨ ∃ e, e ∈ entries ∧ keepEntry valid e = some (fn, d) := by
  intro entries
  induction entries with
  | nil =>
    intro acc fn d h
    simp only [extractAux] at h
    exact Or.inl h
  | cons e rest ih =>
    intro acc fn d h
    cases hk : keepEntry valid e with
    | none =>
      simp only [extractAux, hk] at h
      rcases ih acc fn d h with h1 | ⟨e', he', hk'⟩
      · exact Or.inl h1
      · exact Or.inr ⟨e', List.mem_cons_of_mem _ he', hk'⟩
    | some p =>
      simp only [extractAux, hk] at h
      by_cases hl : 10 ≤ (acc ++ [p]).length
      · rw [if_pos hl] at h
        rcases List.mem_append.mp h with h1 | h2
        · exact Or.inl h1
        · have hp : (fn, d) = p := List.mem_singleton.mp h2
          exact Or.inr ⟨e, List.mem_cons_self _ _, by rw [hk, hp]⟩
      · rw [if_neg hl] at h
        rcases ih (acc ++ [p]) fn d h with h1 | ⟨e', he', hk'⟩
        · rcases List.mem_append.mp h1 with h2 | h3
          · exact Or.inl h2
          · have hp : (fn, d) = p := List.mem_singleton.mp h3
            exact Or.inr ⟨e, List.mem_cons_self _ _, by rw [hk, hp]⟩
        · exact Or.inr ⟨e', List.mem_cons_of_mem _ he', hk'⟩

theorem extractAux_skip (valid : List Nat → Bool) (e : ZipEntry)
    (hk : keepEntry valid e = none) :
    ∀ (pre post : List ZipEntry) (acc : List (String × List Nat)),
      extractAux valid (pre ++ e :: post) acc = extractAux valid (pre ++ post) acc := by
  intro pre
  induction pre with
  | nil =>
    intro post acc
    simp only [List.nil_append, extractAux, hk]
  | cons p pre ih =>
    intro post acc
    cases hkp : keepEntry valid p with
    | none =>
      simp only [List.cons_append, extractAux, hkp]
      exact ih post acc
    | some q =>
      simp only [List.cons_append, extractAux, hkp]
      by_cases hl : 10 ≤ (acc ++ [q]).length
      · rw [if_pos hl, if_pos hl]
      · rw [if_neg hl, if_neg hl]
        exact ih post (acc ++ [q])

/-- C4: every pair returned by `extract_images_from_zip` comes from a
non-directory entry whose lowercased extension is supported and whose bytes
pass the validity check; and a directory entry, an entry with an unsupported
extension, an unreadable entry or an invalid image anywhere in the archive is
skipped without affecting the rest of the scan. -/
theorem c4_extract_filter (valid : List Nat → Bool) (entries : List ZipEntry) :
    (∀ (fn : String) (d : List Nat), (fn, d) ∈ extract_images_from_zip valid entries →
      pyLower (pySplitext fn).2 ∈ SUPPORTED_FORMATS ∧ valid d = true ∧
      ∃ e, e ∈ entries ∧ e.isDir = false ∧ e.filename = fn ∧ e.content = some d) ∧
    (∀ (e : ZipEntry) (pre post : List ZipEntry),
      (e.isDir = true ∨ (pySplitext (pyLower e.filename)).2 ∉ SUPPORTED_FORMATS ∨
        e.content = none ∨ (∀ d, e.content = some d → valid d = false)) →
      extract_images_from_zip valid (pre ++ e :: post) =
        extract_images_from_zip valid (pre ++ post)) := by
  constructor
  · intro fn d h
    rcases extractAux_mem valid entries [] fn d h with h1 | ⟨e, he, hk⟩
    · cases h1
    · obtain ⟨hdir, hfn, hc, hext, hv⟩ := keepEntry_some valid e fn d hk
      refine ⟨?_, hv, e, he, hdir, hfn, hc⟩
      have := pySplitext_pyLower fn
      have h2 : (pySplitext (pyLower fn)).2 = pyLower (pySplitext fn).2 :=
        congrArg Prod.snd this
      rw [← h2]
      exact hext
  · intro e pre post hcond
    exact extractAux_skip valid e (keepEntry_none valid e hcond) pre post []

theorem c4_witness :
    pyLower (pySplitext "a.jpg").2 ∈ SUPPORTED_FORMATS ∧
    (fun _ : List Nat => true) [1] = true ∧
    ∃ e, e ∈ [(⟨"a.jpg", false, some [1]⟩ : ZipEntry)] ∧ e.isDir = false ∧
      e.filename = "a.jpg" ∧ e.content = some [1] :=
  (c4_extract_filter (fun _ => true) [⟨"a.jpg", false, some [1]⟩]).1 "a.jpg" [1] (by decide)

/-! ### C5 : GIF frame sampling -/

theorem collectFrames_length_le (enc : Nat → Option (List Nat)) :
    ∀ l : List Nat, (collectFrames enc l).length ≤ l.length := by
  intro l
  induction l with
  | nil => simp [collectFrames]
  | cons i rest ih =>
    cases hi : enc i with
    | none => simp [collectFrames, hi]
    | some b =>
      simp only [collectFrames, hi, List.length_cons]
      omega

theorem collectFrames_getElem? (enc : Nat → Option (List Nat)) :
    ∀ (l : List Nat) (k : Nat) (b : List Nat),
      (collectFrames enc l)[k]? = some b → ∃ i, l[k]? = some i ∧ enc i = some b := by
  intro l
  induction l with
  | nil => intro k b h; simp [collectFrames] at h
  | cons i rest ih =>
    intro k b h
    cases hi : enc i with
    | none => simp [collectFrames, hi] at h
    | some b0 =>
      simp only [collectFrames, hi] at h
      cases k with
      | zero =>
        simp only [List.getElem?_cons_zero, Option.some.injEq] at h
        subst h
        exact ⟨i, by simp, hi⟩
      | succ k =>
        simp only [List.getElem?_cons_succ] at h
        obtain ⟨j, hj, he⟩ := ih k b h
        exact ⟨j, by simpa using hj, he⟩

/-- C5: for an animated GIF, `extract_gif_frames` selects at most
`MAX_GIF_FRAMES = 5` frames, the `k`-th collected frame being the re-encoding
of the frame at index `k * step` with `step = max 1 (n_frames / 5)` (so the
sampled indices are the evenly spaced `0, step, 2*step, …`); a non-animated
GIF yields exactly its one re-encoded frame; any decoding failure yields the
(possibly empty) list of frames collected so far — the function is total and
never fails. -/
theorem c5_extract_gif_frames (img : PILGif) :
    (extract_gif_frames (some img)).length ≤ MAX_GIF_FRAMES ∧
    (img.isAnimated = true →
      ∀ (k : Nat) (b : List Nat), (extract_gif_frames (some img))[k]? = some b →
        img.encodeFrame (k * max 1 (img.nFrames / MAX_GIF_FRAMES)) = some b) ∧
    (img.isAnimated = false → img.encodeStill = none →
      extract_gif_frames (some img) = []) ∧
    (img.isAnimated = false → ∀ b, img.encodeStill = some b →
      extract_gif_frames (some img) = [b]) ∧
    extract_gif_frames none = [] := by
  refine ⟨?_, ?_, ?_, ?_, rfl⟩
  · cases ha : img.isAnimated
    · cases hs : img.encodeStill with
      | none => simp [extract_gif_frames, ha, hs, MAX_GIF_FRAMES]
      | some b => simp [extract_gif_frames, ha, hs, MAX_GIF_FRAMES]
    · simp only [extract_gif_frames, ha]
      refine le_trans (collectFrames_length_le _ _) ?_
      rw [List.length_take]
      exact Nat.min_le_left _ _
  · intro ha k b h
    simp only [extract_gif_frames, ha] at h
    obtain ⟨i, hi, he⟩ := collectFrames_getElem? _ _ k b h
    rw [List.getElem?_take] at hi
    by_cases hk : k < MAX_GIF_FRAMES
    · rw [if_pos hk] at hi
      unfold pyRangeStep at hi
      have hcnt : k < (img.nFrames + max 1 (img.nFrames / MAX_GIF_FRAMES) - 1) /
          max 1 (img.nFrames / MAX_GIF_FRAMES) := by
        by_contra hc
        rw [List.getElem?_eq_none (by rw [List.length_range']; omega)] at hi
        cases hi
      rw [List.getElem?_range' _ _ hcnt, Option.some.injEq] at hi
      have hik : i = k * max 1 (img.nFrames / MAX_GIF_FRAMES) := by
        rw [Nat.mul_comm k _]
        omega
      rw [← hik]
      exact he
    · rw [if_neg hk] at hi
      cases hi
  · intro ha hs
    simp [extract_gif_frames, ha, hs]
  · intro ha b hs
    simp [extract_gif_frames, ha, hs]

/-- A 12-frame animated GIF whose frame `i` re-encodes to the byte `[i]`. -/
def wGif : PILGif := ⟨true, 12, fun i => some [i], none⟩

theorem c5_witness :
    wGif.encodeFrame (2 * max 1 (wGif.nFrames / MAX_GIF_FRAMES)) = some [4] :=
  (c5_extract_gif_frames wGif).2.1 rfl 2 [4] (by decide)

/-! ### C6 : error handling of `analyze_image` -/

/-- An environment in which every per-frame call succeeds with `а. да` but
the combine call raises `boom`. -/
def cEnvC6 : VisionEnv :=
  { frameApi := fun _ => Except.ok "а. да"
    combineApi := fun _ => Except.error "boom"
    imageApi := fun _ => Except.ok ""
    decodeGif := fun _ => some ⟨true, 1, fun _ => some [0], none⟩ }

/-- C6 counterexample: a step of `analyze_image` raises (`combineApi` raises
`boom`) yet the returned string is the first frame's analysis — it does not
contain the stringified exception message, and it is not one of the error
strings; the fallback to `frame_analyses[0]` in `combine_frame_analyses`
(src/main.py lines 226-231) is a recovery beyond stringifying the
exception. -/
theorem c6_counterexample :
    analyze_image cEnvC6 [0] "x.gif" = "Кадр 1:\nа. да" ∧
    hasSub "boom" (analyze_image cEnvC6 [0] "x.gif") = false ∧
    pyStartsWith "Ошибка" (analyze_image cEnvC6 [0] "x.gif") = false := by
  refine ⟨by decide, by decide, by decide⟩

theorem runFrames_ok_shape (fapi : List Nat → Except String String)
    (frames : List (List Nat)) (as : List String) (hne : frames ≠ [])
    (h : runFrames fapi frames 1 = Except.ok as) :
    ∃ c rest, as = ("Кадр 1:\n" ++ pyStrip c) :: rest := by
  cases frames with
  | nil => exact absurd rfl hne
  | cons f rest =>
    cases hf : fapi f with
    | error e => simp only [runFrames, hf] at h; cases h
    | ok c =>
      simp only [runFrames, hf] at h
      cases hr : runFrames fapi rest (1 + 1) with
      | error e => simp only [hr] at h; cases h
      | ok as' =>
        simp only [hr, Except.ok.injEq] at h
        subst h
        refine ⟨c, as', ?_⟩
        have hpre : "Кадр " ++ natStr 1 ++ ":\n" = "Кадр 1:\n" := by decide
        rw [← hpre]

/-- C6 amended: `analyze_image` is a total function (no exception escapes);
its result is always one of: the fixed GIF-extraction error string, an error
string carrying the stringified exception (`Ошибка при анализе изображения:`
or `Ошибка при анализе GIF:`), the stripped content of an API reply, or —
when combining the per-frame analyses of a GIF fails — the first frame's
analysis, returned as a fallback. -/
theorem c6_analyze_image_amended (env : VisionEnv) (data : List Nat) (fn : String) :
    analyze_image env data fn = "Ошибка: не удалось извлечь кадры из GIF файла" ∨
    (∃ e, analyze_image env data fn = "Ошибка при анализе изображения: " ++ e) ∨
    (∃ e, analyze_image env data fn = "Ошибка при анализе GIF: " ++ e) ∨
    (∃ c, analyze_image env data fn = pyStrip c) ∨
    (∃ rest, analyze_image env data fn = "Кадр 1:\n" ++ rest) := by
  simp only [analyze_image]
  by_cases hg : pyEndsWith ".gif" (pyLower fn) = true
  · rw [if_pos hg]
    by_cases hf : (extract_gif_frames (env.decodeGif data)).isEmpty = true
    · rw [if_pos hf]
      exact Or.inl rfl
    · rw [if_neg hf]
      simp only [analyze_gif_frames]
      rw [if_neg hf]
      cases hr : runFrames env.frameApi (extract_gif_frames (env.decodeGif data)) 1 with
      | error e => exact Or.inr (Or.inr (Or.inl ⟨e, rfl⟩))
      | ok as =>
        simp only [combine_frame_analyses]
        cases hc : env.combineApi (joinNN as) with
        | ok c => exact Or.inr (Or.inr (Or.inr (Or.inl ⟨c, rfl⟩)))
        | error e =>
          have hne : extract_gif_frames (env.decodeGif data) ≠ [] := by
            intro h0
            rw [h0] at hf
            exact hf rfl
          obtain ⟨c, rest, hshape⟩ := runFrames_ok_shape env.frameApi _ as hne hr
          refine Or.inr (Or.inr (Or.inr (Or.inr ⟨pyStrip c, ?_⟩)))
          rw [hshape]
  · rw [if_neg hg]
    cases hi : env.imageApi data with
    | ok c => exact Or.inr (Or.inr (Or.inr (Or.inl ⟨c, rfl⟩)))
    | error e => exact Or.inr (Or.inl ⟨e, rfl⟩)

/-! ### C1 : the parsing table of `parse_analysis_results` -/

/-- The yes/no decision of the `а.`/`б.`/`д.` branches:
`'да' in line.lower()`. -/
def yesNoOf (line : String) : String :=
  if hasSub "да" (pyLower line) = true then "yes" else "no"

/-- The classification of the `в.` branch: keyword lists, else the first word
truncated to 10 characters (`none` when the rest of the line has no word, in
which case the field is left unchanged). -/
def classifyObj (line : String) : Option String :=
  let obj_text := pyLower (pyStrip (pyDrop 2 line))
  if hasSub "люди" obj_text = true ∨ hasSub "человек" obj_text = true then
    some "people"
  else if (["телефон", "компьютер", "машина", "автомобиль"].any
      (fun w => hasSub w obj_text)) = true then
    some "tech"
  else if (["еда", "продукт", "товар", "одежда"].any
      (fun w => hasSub w obj_text)) = true then
    some "product"
  else
    match pyWords obj_text with
    | [] => none
    | w :: _ => some (pyTake 10 w)

/-- The classification of the `г.` branch: the nine-entry colour table, else
the first word truncated to 8 characters. -/
def classifyColor (line : String) : Option String :=
  let color_text := pyLower (pyStrip (pyDrop 2 line))
  match colors_map.find? (fun p => hasSub p.1 color_text) with
  | some p => some p.2
  | none =>
    match pyWords color_text with
    | [] => none
    | w :: _ => some (pyTake 8 w)

theorem isPref_head (c : Char) (cs l : List Char) (h : isPref (c :: cs) l = true) :
    ∃ t, l = c :: t := by
  cases l with
  | nil => simp [isPref] at h
  | cons b bs =>
    simp only [isPref, Bool.and_eq_true, beq_iff_eq] at h
    exact ⟨bs, by rw [h.1]⟩

/-- Two `startswith` tests whose patterns begin with different characters are
mutually exclusive. -/
theorem pyStartsWith_excl (p q : String) (line : String)
    (h : pyStartsWith p line = true) (a b : Char) (as bs : List Char)
    (hp : p.data = a :: as) (hq : q.data = b :: bs) (hne : a ≠ b) :
    ¬(pyStartsWith q line = true) := by
  intro hq'
  unfold pyStartsWith at h hq'
  rw [hp] at h
  rw [hq] at hq'
  obtain ⟨t, ht⟩ := isPref_head a as line.data h
  rw [ht] at hq'
  simp only [isPref, Bool.and_eq_true, beq_iff_eq] at hq'
  exact hne hq'.1.symm

/-- One parsing step, characterised field by field: each marker updates only
its own field, via `yesNoOf` / `classifyObj` / `classifyColor`. -/
theorem stepCore_fields (r : AnalysisResults) (line : String) :
    parseStepCore r line =
      ⟨(if pyStartsWith "а." line = true then yesNoOf line else r.realistic_photo),
       (if pyStartsWith "б." line = true then yesNoOf line else r.illustration),
       (if pyStartsWith "в." line = true then (classifyObj line).getD r.main_object
        else r.main_object),
       (if pyStartsWith "г." line = true then (classifyColor line).getD r.background_color
        else r.background_color),
       (if pyStartsWith "д." line = true then yesNoOf line else r.discount_message)⟩ := by
  obtain ⟨f1, f2, f3, f4, f5⟩ := r
  simp only [parseStepCore, yesNoOf, classifyObj, classifyColor]
  by_cases h1 : pyStartsWith "а." line = true
  · have hb := pyStartsWith_excl "а." "б." line h1 'а' 'б' ['.'] ['.'] rfl rfl (by decide)
    have hv := pyStartsWith_excl "а." "в." line h1 'а' 'в' ['.'] ['.'] rfl rfl (by decide)
    have hg := pyStartsWith_excl "а." "г." line h1 'а' 'г' ['.'] ['.'] rfl rfl (by decide)
    have hd := pyStartsWith_excl "а." "д." line h1 'а' 'д' ['.'] ['.'] rfl rfl (by decide)
    rw [if_pos h1, if_pos h1, if_neg hb, if_neg hv, if_neg hg, if_neg hd]
  · rw [if_neg h1, if_neg h1]
    by_cases h2 : pyStartsWith "б." line = true
    · have hv := pyStartsWith_excl "б." "в." line h2 'б' 'в' ['.'] ['.'] rfl rfl (by decide)
      have hg := pyStartsWith_excl "б." "г." line h2 'б' 'г' ['.'] ['.'] rfl rfl (by decide)
      have hd := pyStartsWith_excl "б." "д." line h2 'б' 'д' ['.'] ['.'] rfl rfl (by decide)
      rw [if_pos h2, if_pos h2, if_neg hv, if_neg hg, if_neg hd]
    · rw [if_neg h2, if_neg h2]
      by_cases h3 : pyStartsWith "в." line = true
      · have hg := pyStartsWith_excl "в." "г." line h3 'в' 'г' ['.'] ['.'] rfl rfl (by decide)
        have hd := pyStartsWith_excl "в." "д." line h3 'в' 'д' ['.'] ['.'] rfl rfl (by decide)
        rw [if_pos h3, if_pos h3, if_neg hg, if_neg hd]
        by_cases hL : hasSub "люди" (pyLower (pyStrip (pyDrop 2 line))) = true ∨
            hasSub "человек" (pyLower (pyStrip (pyDrop 2 line))) = true
        · rw [if_pos hL, if_pos hL]; rfl
        · rw [if_neg hL, if_neg hL]
          by_cases hT : (["телефон", "компьютер", "машина", "автомобиль"].any
              (fun w => hasSub w (pyLower (pyStrip (pyDrop 2 line))))) = true
          · rw [if_pos hT, if_pos hT]; rfl
          · rw [if_neg hT, if_neg hT]
            by_cases hP : (["еда", "продукт", "товар", "одежда"].any
                (fun w => hasSub w (pyLower (pyStrip (pyDrop 2 line))))) = true
            · rw [if_pos hP, if_pos hP]; rfl
            · rw [if_neg hP, if_neg hP]
              cases hw : pyWords (pyLower (pyStrip (pyDrop 2 line))) with
              | nil => rfl
              | cons w ws => rfl
      · rw [if_neg h3, if_neg h3]
        by_cases h4 : pyStartsWith "г." line = true
        · have hd := pyStartsWith_excl "г." "д." line h4 'г' 'д' ['.'] ['.'] rfl rfl (by decide)
          rw [if_pos h4, if_pos h4, if_neg hd]
          cases hfc : colors_map.find?
              (fun p => hasSub p.1 (pyLower (pyStrip (pyDrop 2 line)))) with
          | some p => rfl
          | none =>
            cases hw : pyWords (pyLower (pyStrip (pyDrop 2 line))) with
            | nil => rfl
            | cons w ws => rfl
        · rw [if_neg h4, if_neg h4]
          by_cases h5 : pyStartsWith "д." line = true
          · rw [if_pos h5, if_pos h5]
          · rw [if_neg h5, if_neg h5]

/-- Threading a per-field projection through the parsing fold. -/
theorem foldl_field (F : AnalysisResults → String) (u : String → String → String)
    (hstep : ∀ r l, F (parseStep r l) = u (F r) l) :
    ∀ (ls : List String) (r : AnalysisResults),
      F (ls.foldl parseStep r) = ls.foldl u (F r) := by
  intro ls
  induction ls with
  | nil => intro r; rfl
  | cons l t ih =>
    intro r
    simp only [List.foldl_cons]
    rw [ih, hstep]

/-- C1: `parse_analysis_results` always yields a dictionary with exactly the
five fixed keys; over the stripped lines of the input, each field is folded
as the claim describes: a line starting with `а.`/`б.`/`д.` sets its field to
`yes` exactly when `да` occurs in the lowercased line and to `no` otherwise,
a line starting with `в.` (resp. `г.`) sets `main_object`
(resp. `background_color`) via the keyword lists / colour table and else to
the first word truncated to 10 (resp. 8) characters, and a field with no
matching line keeps the initial value `unknown`. -/
theorem c1_parse_analysis_results (text : String) :
    (parse_analysis_results text).toPairs.map Prod.fst =
      ["realistic_photo", "illustration", "main_object", "background_color",
       "discount_message"] ∧
    (parse_analysis_results text).realistic_photo =
      ((pySplitLines text).map pyStrip).foldl
        (fun a l => if pyStartsWith "а." l = true then yesNoOf l else a) "unknown" ∧
    (parse_analysis_results text).illustration =
      ((pySplitLines text).map pyStrip).foldl
        (fun a l => if pyStartsWith "б." l = true then yesNoOf l else a) "unknown" ∧
    (parse_analysis_results text).main_object =
      ((pySplitLines text).map pyStrip).foldl
        (fun a l => if pyStartsWith "в." l = true then (classifyObj l).getD a else a)
        "unknown" ∧
    (parse_analysis_results text).background_color =
      ((pySplitLines text).map pyStrip).foldl
        (fun a l => if pyStartsWith "г." l = true then (classifyColor l).getD a else a)
        "unknown" ∧
    (parse_analysis_results text).discount_message =
      ((pySplitLines text).map pyStrip).foldl
        (fun a l => if pyStartsWith "д." l = true then yesNoOf l else a) "unknown" := by
  refine ⟨rfl, ?_, ?_, ?_, ?_, ?_⟩
  · rw [List.foldl_map]
    exact foldl_field AnalysisResults.realistic_photo _
      (fun r l => by rw [show parseStep r l = parseStepCore r (pyStrip l) from rfl,
        stepCore_fields]) (pySplitLines text) _
  · rw [List.foldl_map]
    exact foldl_field AnalysisResults.illustration _
      (fun r l => by rw [show parseStep r l = parseStepCore r (pyStrip l) from rfl,
        stepCore_fields]) (pySplitLines text) _
  · rw [List.foldl_map]
    exact foldl_field AnalysisResults.main_object _
      (fun r l => by rw [show parseStep r l = parseStepCore r (pyStrip l) from rfl,
        stepCore_fields]) (pySplitLines text) _
  · rw [List.foldl_map]
    exact foldl_field AnalysisResults.background_color _
      (fun r l => by rw [show parseStep r l = parseStepCore r (pyStrip l) from rfl,
        stepCore_fields]) (pySplitLines text) _
  · rw [List.foldl_map]
    exact foldl_field AnalysisResults.discount_message _
      (fun r l => by rw [show parseStep r l = parseStepCore r (pyStrip l) from rfl,
        stepCore_fields]) (pySplitLines text) _

/-! ### C9 : the renamed archive has n + 1 pairwise distinct entries -/

theorem dedupName_not_mem (used : List String) (nm : String) :
    dedupName used nm ∉ used := by
  unfold dedupName
  by_cases h : nm ∈ used
  · rw [if_pos h]
    exact Nat.find_spec (exists_free_candidate used (pySplitext nm).1 (pySplitext nm).2)
  · rw [if_neg h]
    exact h

theorem rfindAux_spec (ch : Char) :
    ∀ (l : List Char) (i j : Nat), rfindAux ch l i = some j →
      ∃ k, j = i + k ∧ l[k]? = some ch := by
  intro l
  induction l with
  | nil => intro i j h; cases h
  | cons a t ih =>
    intro i j h
    cases hr : rfindAux ch t (i + 1) with
    | some j0 =>
      simp only [rfindAux, hr, Option.some.injEq] at h
      obtain ⟨k, hk, hget⟩ := ih (i + 1) j0 hr
      exact ⟨k + 1, by omega, by simpa using hget⟩
    | none =>
      simp only [rfindAux, hr] at h
      by_cases ha : a = ch
      · rw [if_pos ha] at h
        simp only [Option.some.injEq] at h
        exact ⟨0, by omega, by simp [ha]⟩
      · rw [if_neg ha] at h
        cases h

theorem rfind_spec (ch : Char) (l : List Char) (j : Nat) (h : rfind ch l = some j) :
    l[j]? = some ch := by
  obtain ⟨k, hk, hget⟩ := rfindAux_spec ch l 0 j h
  have hjk : j = k := by omega
  rw [hjk]
  exact hget

/-- When the first two characters are not dots, `splitext` keeps a stem that
is either the whole name or its first `d ≥ 2` characters. -/
theorem pySplitextL_stem (l : List Char) (h0 : l[0]? ≠ some '.')
    (h1 : l[1]? ≠ some '.') :
    (pySplitextL l).1 = l ∨
    ∃ d, 2 ≤ d ∧ d < l.length ∧ (pySplitextL l).1 = l.take d := by
  cases hd : rfind '.' l with
  | none =>
    rw [pySplitextL_eq_none l hd]
    exact Or.inl rfl
  | some d =>
    have hdot : l[d]? = some '.' := rfind_spec '.' l d hd
    have hdlt : d < l.length := by
      by_contra hc
      rw [List.getElem?_eq_none (by omega)] at hdot
      cases hdot
    have hd2 : 2 ≤ d := by
      cases d with
      | zero => exact absurd hdot h0
      | succ d1 =>
        cases d1 with
        | zero => exact absurd hdot h1
        | succ d2 => omega
    rw [pySplitextL_eq_some l d hd]
    by_cases hs : extSepIdx l ≤ d
    · rw [if_pos hs]
      by_cases ha : ((List.range (d - extSepIdx l)).any
          (fun o => decide (l.get? (extSepIdx l + o) ≠ some '.'))) = true
      · rw [if_pos ha]
        exact Or.inr ⟨d, hd2, hdlt, rfl⟩
      · rw [if_neg ha]
        exact Or.inl rfl
    · rw [if_neg hs]
      exact Or.inl rfl

theorem strGet_left (a b : String) (i : Nat) (h : i < a.length) :
    (a ++ b).data[i]? = a.data[i]? := by
  rw [data_append]
  exact List.getElem?_append_left h

/-- The disambiguation candidate keeps the second character of the name. -/
theorem dedupName_get1 (used : List String) (nm : String) (c0 c1 : Char)
    (h0 : nm.data[0]? = some c0) (h1 : nm.data[1]? = some c1)
    (hc0 : c0 ≠ '.') (hc1 : c1 ≠ '.') :
    (dedupName used nm).data[1]? = some c1 := by
  unfold dedupName
  by_cases hmem : nm ∈ used
  · rw [if_pos hmem]
    have hlen2 : 1 < nm.data.length := by
      by_contra hl
      rw [List.getElem?_eq_none (by omega)] at h1
      cases h1
    have hstem : (pySplitext nm).1.data[1]? = some c1 ∧ 1 < (pySplitext nm).1.data.length := by
      unfold pySplitext
      rw [data_mk]
      rcases pySplitextL_stem nm.data
          (by rw [h0]; intro hh; exact hc0 (Option.some.injEq _ _ ▸ hh))
          (by rw [h1]; intro hh; exact hc1 (Option.some.injEq _ _ ▸ hh)) with
        he | ⟨d, hd2, hdlt, he⟩
      · rw [he]
        exact ⟨h1, hlen2⟩
      · rw [he]
        constructor
        · rw [List.getElem?_take, if_pos (by omega)]
          exact h1
        · rw [List.length_take]
          omega
    simp only [candName]
    rw [strGet_left _ _ 1 (by rw [length_data]; exact hstem.2)]
    exact hstem.1
  · rw [if_neg hmem]
    exact h1

/-- The first two characters of every new filename: `GI` for GIF files,
otherwise `R` followed by the photo flag `0`/`1`. -/
theorem cnf_prefix (fn : String) (ar : AnalysisResults) :
    ((create_new_filename fn ar).data[0]? = some 'G' ∧
     (create_new_filename fn ar).data[1]? = some 'I') ∨
    ((create_new_filename fn ar).data[0]? = some 'R' ∧
     ((create_new_filename fn ar).data[1]? = some '0' ∨
      (create_new_filename fn ar).data[1]? = some '1')) := by
  simp only [create_new_filename]
  by_cases hg : pyLower (pySplitext fn).2 = ".gif"
  · rw [if_pos hg]
    exact Or.inl ⟨rfl, rfl⟩
  · rw [if_neg hg]
    right
    by_cases hp : ar.realistic_photo = "yes"
    · rw [if_pos hp]
      exact ⟨rfl, Or.inr rfl⟩
    · rw [if_neg hp]
      exact ⟨rfl, Or.inl rfl⟩

/-- Names produced for images: the second character is `0`, `1` or `I`
(in particular the name is never `README_naming_scheme.txt`). -/
def nameTagOK (nm : String) : Prop :=
  nm.data[1]? = some '0' ∨ nm.data[1]? = some '1' ∨ nm.data[1]? = some 'I'

theorem dedupName_tag (used : List String) (fn : String) (ar : AnalysisResults) :
    nameTagOK (dedupName used (create_new_filename fn ar)) := by
  rcases cnf_prefix fn ar with ⟨hg0, hg1⟩ | ⟨hr0, hr1⟩
  · exact Or.inr (Or.inr (dedupName_get1 used _ 'G' 'I' hg0 hg1 (by decide) (by decide)))
  · rcases hr1 with h1 | h1
    · exact Or.inl (dedupName_get1 used _ 'R' '0' hr0 h1 (by decide) (by decide))
    · exact Or.inr (Or.inl (dedupName_get1 used _ 'R' '1' hr0 h1 (by decide) (by decide)))

theorem renamedLoop_length :
    ∀ (rest : List (String × List Nat × String)) (used : List String)
      (acc : List (String × FileData)),
      (renamedLoop rest used acc).length = acc.length + rest.length := by
  intro rest
  induction rest with
  | nil => intro used acc; simp [renamedLoop]
  | cons x t ih =>
    intro used acc
    obtain ⟨fn, d, an⟩ := x
    simp only [renamedLoop]
    rw [ih]
    simp only [List.length_append, List.length_cons, List.length_nil]
    omega

theorem renamedLoop_names :
    ∀ (rest : List (String × List Nat × String)) (used : List String)
      (acc : List (String × FileData)) (n : String),
      n ∈ (renamedLoop rest used acc).map Prod.fst →
      n ∈ acc.map Prod.fst ∨ nameTagOK n := by
  intro rest
  induction rest with
  | nil => intro used acc n h; exact Or.inl h
  | cons x t ih =>
    intro used acc n h
    obtain ⟨fn, d, an⟩ := x
    simp only [renamedLoop] at h
    rcases ih _ _ n h with h1 | h2
    · rw [List.map_append] at h1
      rcases List.mem_append.mp h1 with h3 | h4
      · exact Or.inl h3
      · right
        have hn : n = dedupName used (create_new_filename fn (parse_analysis_results an)) := by
          simpa using h4
        rw [hn]
        exact dedupName_tag used fn (parse_analysis_results an)
    · exact Or.inr h2

theorem renamedLoop_nodup :
    ∀ (rest : List (String × List Nat × String)) (used : List String)
      (acc : List (String × FileData)),
      (acc.map Prod.fst).Nodup → (∀ n ∈ acc.map Prod.fst, n ∈ used) →
      ((renamedLoop rest used acc).map Prod.fst).Nodup := by
  intro rest
  induction rest with
  | nil => intro used acc h1 h2; exact h1
  | cons x t ih =>
    intro used acc h1 h2
    obtain ⟨fn, d, an⟩ := x
    simp only [renamedLoop]
    apply ih
    · rw [List.map_append]
      refine List.Nodup.append h1 (by simp) ?_
      intro a ha hb
      simp only [List.map_cons, List.map_nil, List.mem_singleton] at hb
      exact absurd (h2 a ha) (hb ▸ dedupName_not_mem used _)
    · intro n hn
      rw [List.map_append] at hn
      rcases List.mem_append.mp hn with h3 | h4
      · exact List.mem_append_left _ (h2 n h3)
      · simp only [List.map_cons, List.map_nil, List.mem_singleton] at h4
        exact List.mem_append_right _ (by simp [h4])

/-- C9: the archive written by `create_renamed_zip` has exactly `n + 1`
entries for `n` input images — one per image (collisions disambiguated by the
`_001`, `_002`, … counters inserted before the extension) plus the fixed
`README_naming_scheme.txt` — and the entry names are pairwise distinct. -/
theorem c9_create_renamed_zip (iwa : List (String × List Nat × String)) :
    (create_renamed_zip iwa).length = iwa.length + 1 ∧
    ((create_renamed_zip iwa).map Prod.fst).Nodup ∧
    ("README_naming_scheme.txt", FileData.txt readme_content) ∈ create_renamed_zip iwa := by
  unfold create_renamed_zip
  refine ⟨?_, ?_, ?_⟩
  · rw [List.length_append, renamedLoop_length]
    simp
  · rw [List.map_append]
    refine List.Nodup.append (renamedLoop_nodup iwa [] [] (by simp) (by simp)) (by simp) ?_
    intro a ha hb
    simp only [List.map_cons, List.map_nil, List.mem_singleton] at hb
    rcases renamedLoop_names iwa [] [] a ha with h | h
    · simp at h
    · rw [hb] at h
      rcases h with h | h | h <;> exact absurd h (by decide)
  · exact List.mem_append_right _ (by simp)

/-! ### C10 : `split_message` bounds -/

theorem dropWhile_length_le (p : Char → Bool) (l : List Char) :
    (l.dropWhile p).length ≤ l.length :=
  (List.dropWhile_suffix p).length_le

theorem pyStrip_length_le (s : String) : (pyStrip s).length ≤ s.length := by
  simp only [pyStrip, length_data, data_mk, pyStripL, stripEnd]
  refine le_trans (dropWhile_length_le _ _) ?_
  rw [List.length_reverse]
  refine le_trans (dropWhile_length_le _ _) ?_
  rw [List.length_reverse]

/-- Stripping removes a trailing newline: appending `"\n"` does not change
the stripped string. -/
theorem pyStrip_concat_newline (s : String) : pyStrip (s ++ "\n") = pyStrip s := by
  simp only [pyStrip, data_append]
  congr 1
  show pyStripL (s.data ++ ['\n']) = pyStripL s.data
  simp only [pyStripL, stripEnd]
  have hrev : (s.data ++ ['\n']).reverse = '\n' :: s.data.reverse := by simp
  rw [hrev]
  simp [List.dropWhile]

theorem chunkLoop_spec (ml : Nat) (hml : 0 < ml) :
    ∀ (n : Nat) (line : String), line.length ≤ n →
      (∀ p ∈ (chunkLoop ml line).1, p.length ≤ ml) ∧
      (chunkLoop ml line).2.length ≤ ml := by
  intro n
  induction n with
  | zero =>
    intro line hl
    rw [chunkLoop, dif_neg (by omega)]
    refine ⟨by simp, ?_⟩
    show line.length ≤ ml
    omega
  | succ n ih =>
    intro line hl
    rw [chunkLoop]
    by_cases h : 0 < ml ∧ ml < line.length
    · rw [dif_pos h]
      have hdrop : (pyDrop ml line).length ≤ n := by
        have hlen : line.length = line.data.length := rfl
        simp only [pyDrop, length_data, data_mk, List.length_drop]
        omega
      obtain ⟨ih1, ih2⟩ := ih (pyDrop ml line) hdrop
      constructor
      · intro p hp
        rcases List.mem_cons.mp hp with rfl | hp2
        · simp only [pyTake, length_data, data_mk, List.length_take]
          exact Nat.min_le_left _ _
        · exact ih1 p hp2
      · exact ih2
    · rw [dif_neg h]
      refine ⟨by simp, ?_⟩
      rcases Nat.lt_or_ge ml line.length with hlt | hge
      · exact absurd ⟨hml, hlt⟩ h
      · exact hge

theorem smLoop_bound (ml : Nat) (hml : 0 < ml) (B : Nat) (hB : ml ≤ B) :
    ∀ (ls parts : List String) (current : String),
      (∀ l ∈ ls, l.length ≤ B) →
      (∀ p ∈ parts, p.length ≤ B) →
      (pyStrip current).length ≤ B →
      ∀ p ∈ smLoop ml ls parts current, p.length ≤ B := by
  intro ls
  induction ls with
  | nil =>
    intro parts current hls hparts hcur p hp
    simp only [smLoop] at hp
    by_cases hc : current ≠ ""
    · rw [if_pos hc] at hp
      rcases List.mem_append.mp hp with h1 | h2
      · exact hparts p h1
      · rw [List.mem_singleton] at h2
        rw [h2]
        exact hcur
    · rw [if_neg hc] at hp
      exact hparts p hp
  | cons line rest ih =>
    intro parts current hls hparts hcur p hp
    have hline : line.length ≤ B := hls line (List.mem_cons_self _ _)
    have hrest : ∀ l ∈ rest, l.length ≤ B := fun l hl => hls l (List.mem_cons_of_mem _ hl)
    simp only [smLoop] at hp
    by_cases hover : ml < (current ++ line ++ "\n").length
    · rw [if_pos hover] at hp
      by_cases hc : current ≠ ""
      · rw [if_pos hc] at hp
        refine ih (parts ++ [pyStrip current]) (line ++ "\n") hrest ?_ ?_ p hp
        · intro q hq
          rcases List.mem_append.mp hq with h1 | h2
          · exact hparts q h1
          · rw [List.mem_singleton] at h2
            rw [h2]
            exact hcur
        · rw [pyStrip_concat_newline]
          exact le_trans (pyStrip_length_le line) hline
      · rw [if_neg hc] at hp
        obtain ⟨hch, hrem⟩ := chunkLoop_spec ml hml line.length line le_rfl
        refine ih (parts ++ (chunkLoop ml line).1) ((chunkLoop ml line).2 ++ "\n")
          hrest ?_ ?_ p hp
        · intro q hq
          rcases List.mem_append.mp hq with h1 | h2
          · exact hparts q h1
          · exact le_trans (hch q h2) hB
        · rw [pyStrip_concat_newline]
          exact le_trans (pyStrip_length_le _) (le_trans hrem hB)
    · rw [if_neg hover] at hp
      refine ih parts (current ++ line ++ "\n") hrest hparts ?_ p hp
      exact le_trans (pyStrip_length_le _) (le_trans (Nat.le_of_not_lt hover) hB)

/-- The longest line of a text (`split('\n')`). -/
def maxLineLen (text : String) : Nat := maxLenStr (pySplitLines text)

/-- C10 counterexample: with `max_length = 10`, the text
`"aaaa\nbbbbbbbbbbbbbbbb"` is split into `["aaaa", "bbbbbbbbbbbbbbbb"]` —
the second part has 16 > 10 characters.  A line longer than `max_length`
that arrives while `current_part` is nonempty becomes the new current part
without being chopped (src/main.py lines 543-545), so the claimed bound
fails. -/
theorem c10_counterexample :
    ¬ (∀ p ∈ split_message "aaaa\nbbbbbbbbbbbbbbbb" 10, p.length ≤ 10) := by
  decide

/-- C10 amended: `split_message` is total (the model is a total function; the
chopping loop consumes `max_length ≥ 1` characters per step), and every
returned part is bounded by `max(max_length, longest line of the text)` —
the claimed bound `max_length` itself holds only when no line exceeds
`max_length`. -/
theorem c10_split_message_amended (text : String) (ml : Nat) (hml : 2 ≤ ml) :
    ∀ p ∈ split_message text ml, p.length ≤ max ml (maxLineLen text) := by
  intro p hp
  have h0 : (pyStrip "").length = 0 := by decide
  refine smLoop_bound ml (by omega) (max ml (maxLineLen text)) (le_max_left _ _)
    (pySplitLines text) [] "" ?_ (by simp) (by rw [h0]; exact Nat.zero_le _) p hp
  intro l hl
  exact le_trans (mem_length_le_maxLenStr hl) (le_max_right _ _)

theorem c10_witness : "cd".length ≤ max 4 (maxLineLen "ab\ncd") :=
  c10_split_message_amended "ab\ncd" 4 (by decide) "cd" (by decide)

/-! ### C7 : the repackaged archive and its derived name -/

/-- A one-image archive used for the C7 scenarios. -/
def c7entries : List ZipEntry := [⟨"p.jpg", false, some [1]⟩]

/-- C7 counterexample: for the input name `a.zip.zip`, the archive sent is
named `a_analyzed_<ts>.zip` — `replace('.zip', '')` (src/main.py line 481)
removes **every** occurrence of `.zip`, not just the suffix, so the name
claimed by the spec (`a.zip_analyzed_<ts>.zip`, the original with its `.zip`
suffix removed) differs from the one produced. -/
theorem c7_counterexample :
    docNamesOf (process_zip_file (fun _ => true) (fun _ _ => "а. да")
        "20250101_000000" "a.zip.zip" 0 c7entries) =
      ["a_analyzed_20250101_000000.zip"] ∧
    ("a_analyzed_20250101_000000.zip" : String) ≠ "a.zip_analyzed_20250101_000000.zip" := by
  exact ⟨by decide, by decide⟩

/-- C7 amended: on successful processing (a `.zip` document within the size
limit containing at least one valid image), `process_zip_file` sends both the
human-readable results table (split into parts when over 4096 characters)
and the repackaged archive, whose name is the original filename with every
occurrence of `.zip` removed (not only the suffix), followed by
`_analyzed_<timestamp>.zip`. -/
theorem c7_process_zip_file_amended (valid : List Nat → Bool)
    (analyze : List Nat → String → String) (now file_name : String)
    (file_size : Nat) (entries : List ZipEntry)
    (hz : pyEndsWith ".zip" (pyLower file_name) = true)
    (hs : file_size ≤ MAX_FILE_SIZE)
    (hne : (extract_images_from_zip valid entries).isEmpty = false) :
    Out.doc (derive_archive_name file_name now)
      (create_renamed_zip ((extract_images_from_zip valid entries).map
        (fun p => (p.1, p.2, analyze p.2 p.1)))) ∈
      process_zip_file valid analyze now file_name file_size entries ∧
    ((format_results_table ((extract_images_from_zip valid entries).map
        (fun p => (p.1, analyze p.2 p.1))) now).length ≤ 4096 →
      Out.text (format_results_table ((extract_images_from_zip valid entries).map
        (fun p => (p.1, analyze p.2 p.1))) now) ∈
        process_zip_file valid analyze now file_name file_size entries) ∧
    (4096 < (format_results_table ((extract_images_from_zip valid entries).map
        (fun p => (p.1, analyze p.2 p.1))) now).length →
      ∀ p ∈ split_message (format_results_table ((extract_images_from_zip valid entries).map
          (fun q => (q.1, analyze q.2 q.1))) now) 4096,
        Out.text p ∈ process_zip_file valid analyze now file_name file_size entries) := by
  simp only [process_zip_file]
  rw [if_neg (by simp [hz]), if_neg (by omega), if_neg (by simp [hne])]
  refine ⟨List.mem_append_right _ (by simp), ?_, ?_⟩
  · intro hle
    rw [if_neg (by omega)]
    exact List.mem_append_left _ (by simp)
  · intro hgt p hp
    rw [if_pos hgt]
    exact List.mem_append_left _ (List.mem_map_of_mem Out.text hp)

theorem c7_witness :
    Out.doc (derive_archive_name "b.zip" "20250101_000000")
      (create_renamed_zip ((extract_images_from_zip (fun _ => true) c7entries).map
        (fun p => (p.1, p.2, "а. да")))) ∈
      process_zip_file (fun _ => true) (fun _ _ => "а. да") "20250101_000000"
        "b.zip" 0 c7entries :=
  (c7_process_zip_file_amended (fun _ => true) (fun _ _ => "а. да") "20250101_000000"
    "b.zip" 0 c7entries (by decide) (by decide) (by decide)).1

/-! ### C8 : no persistent state -/

/-- C8: the objects hold only the clients set in `__init__`; every method,
translated as a state-passing function over the object state, returns its
state unchanged, and processing a sequence of archives yields exactly the
per-archive results of processing each one from the initial state — no
archive's processing affects or depends on any other. -/
theorem c8_no_persistent_state (self : TelegramBotObj) (valid : List Nat → Bool)
    (analyze : List Nat → String → String) (now : String) (jobs : List ZipJob) :
    (self.processArchivesM valid analyze now jobs).1 = self ∧
    (self.processArchivesM valid analyze now jobs).2 =
      jobs.map (fun j => (self.process_zip_fileM valid analyze now j).2) ∧
    (∀ t, (self.analyzer.parse_analysis_resultsM t).1 = self.analyzer) ∧
    (∀ fn ar, (self.analyzer.create_new_filenameM fn ar).1 = self.analyzer) ∧
    (∀ env d fn, (self.analyzer.analyze_imageM env d fn).1 = self.analyzer) ∧
    (∀ entries, (self.extract_images_from_zipM valid entries).1 = self) ∧
    (∀ j, (self.process_zip_fileM valid analyze now j).1 = self) := by
  refine ⟨?_, ?_, fun t => rfl, fun fn ar => rfl, fun env d fn => rfl,
    fun entries => rfl, fun j => rfl⟩
  · induction jobs with
    | nil => rfl
    | cons j rest ih =>
      simp only [TelegramBotObj.processArchivesM, TelegramBotObj.process_zip_fileM]
      exact ih
  · induction jobs with
    | nil => rfl
    | cons j rest ih =>
      simp only [TelegramBotObj.processArchivesM, TelegramBotObj.process_zip_fileM,
        List.map_cons]
      rw [ih]
      rfl
